import Mathlib

/-!
# Verification of the httpsig HTTP-Signatures core

A shallow embedding of `src/lib.rs` of the `httpsig` crate
(draft-cavage HTTP signatures): the signing-string canonicalization,
the `Signature` header parser/encoder, and the sign/verify entry points.

Modelling conventions:
- Strings are `List Char` (`Str` below); all protocol content is ASCII,
  so Rust's byte buffers and Lean's char lists agree position-for-position.
- An `http::Request<T>` is a `Request`: method, uri, an ordered list of
  (name, value) header pairs (the `http` crate's `HeaderMap` stores names
  lower-cased and iterates in insertion order; `get` is case-insensitive
  and returns the first value), and an opaque body.
- The asymmetric crypto is the external `openssl` signer/verifier; it is
  abstracted as functions `signFn : Str → List Nat` (payload to signature
  bytes) and `verifyFn : Str → List Nat → Bool` (payload, signature bytes).
- `base64` (an external leaf dependency) is embedded concretely as the
  standard padded alphabet: `b64encode` / `b64decode`.
- Fallible paths are `Option` / `Except Unit`: `Except.error ()` stands for
  the `Err(..)` early returns of the Rust code.
-/

namespace HttpSig

/-- Strings as lists of characters (ASCII throughout the protocol). -/
abbrev Str := List Char

/-- Rust's `to_ascii_lowercase` on a string (Lean's `Char.toLower` is
ASCII-only, matching `u8::to_ascii_lowercase`). -/
def lowerChars (s : Str) : Str := s.map Char.toLower

/-- The read-only view of `http::Request<T>` used by the library: method,
uri, ordered header (name, value) pairs, body. Header names are stored
lower-cased by the `http` crate (`HeaderName` invariant). -/
structure Request where
  method : Str
  uri : Str
  headers : List (Str × Str)
  body : Str
deriving DecidableEq

/-- `request.headers().get(name)`: case-insensitive lookup returning the
first value for the name. The `http` crate lowercases the query and
compares against the stored (already lowercase) names. -/
def Request.getHeader (req : Request) (name : Str) : Option Str :=
  (req.headers.find? (fun p => p.1 == lowerChars name)).map (·.2)

/-- Rust `str::split(c)`: split at every occurrence of the character,
keeping empty segments (the result is never empty). -/
def splitChar (c : Char) : Str → List Str
  | [] => [[]]
  | x :: xs =>
    if x = c then [] :: splitChar c xs
    else
      match splitChar c xs with
      | r :: rs => (x :: r) :: rs
      | [] => [[x]]

/-- Rust `str::splitn(2, c)` followed by the two `kv.next()` calls:
`some (before, after)` at the first occurrence of `c`, `none` when `c`
does not occur (the second `next()` returns `None`). -/
def splitFirst (c : Char) : Str → Option (Str × Str)
  | [] => none
  | x :: xs =>
    if x = c then some ([], xs)
    else (splitFirst c xs).map (fun kv => (x :: kv.1, kv.2))

/-- Rust `value.trim_start_matches('"').trim_end_matches('"')`: remove all
leading and all trailing double-quote characters. -/
def trimQuotes (v : Str) : Str :=
  ((v.dropWhile (· == '"')).reverse.dropWhile (· == '"')).reverse

/-- `SignatureParts` of `src/lib.rs`: the parsed `Signature` header value. -/
structure SignatureParts where
  headers : Option Str
  key_id : Str
  signature : Str
  algorithm : Option Str
deriving DecidableEq

/-- The accumulator state of the `for part in signature_string.split(',')`
loop: (headers, keyId, algorithm, signature) captured so far. -/
abbrev ParseAcc := Option Str × Option Str × Option Str × Option Str

/-- The parsing loop of `parse_signature_parts`: for each comma segment,
split at the first `=` (no `=` rejects the parse), require the value to
start and end with `"` (otherwise reject), strip quotes, and assign the
value to the recognized key, ignoring unknown keys. -/
def parseSegments : List Str → ParseAcc → Option ParseAcc
  | [], acc => some acc
  | part :: rest, (hs, kid, alg, sig) =>
    match splitFirst '=' part with
    | none => none
    | some (key, value) =>
      if !(value.head? == some '"' && value.getLast? == some '"') then none
      else
        let v := trimQuotes value
        if key = "headers".data then parseSegments rest (some v, kid, alg, sig)
        else if key = "keyId".data then parseSegments rest (hs, some v, alg, sig)
        else if key = "algorithm".data then parseSegments rest (hs, kid, some v, sig)
        else if key = "signature".data then parseSegments rest (hs, kid, alg, some v)
        else parseSegments rest (hs, kid, alg, sig)

/-- `parse_signature_parts` of `src/lib.rs`. -/
def parse_signature_parts (signature_string : Str) : Option SignatureParts :=
  match parseSegments (splitChar ',' signature_string) (none, none, none, none) with
  | none => none
  | some (hs, kid, alg, sig) =>
    match kid, sig with
    | some k, some s => some ⟨hs, k, s, alg⟩
    | _, _ => none

/-! ## Base64 (external leaf dependency, standard alphabet with padding) -/

/-- The standard base64 alphabet character for a sextet `n < 64`. -/
def sextetChar (n : Nat) : Char :=
  if n < 26 then Char.ofNat (65 + n)
  else if n < 52 then Char.ofNat (97 + (n - 26))
  else if n < 62 then Char.ofNat (48 + (n - 52))
  else if n = 62 then '+'
  else '/'

/-- Decode one base64 alphabet character back to its sextet. -/
def sextetVal (c : Char) : Option Nat :=
  if 'A' ≤ c ∧ c ≤ 'Z' then some (c.toNat - 65)
  else if 'a' ≤ c ∧ c ≤ 'z' then some (c.toNat - 97 + 26)
  else if '0' ≤ c ∧ c ≤ '9' then some (c.toNat - 48 + 52)
  else if c = '+' then some 62
  else if c = '/' then some 63
  else none

/-- `base64::encode`: bytes (as `Nat < 256`) to the padded standard
alphabet. -/
def b64encode : List Nat → Str
  | [] => []
  | [a] => [sextetChar (a / 4), sextetChar (a % 4 * 16), '=', '=']
  | [a, b] => [sextetChar (a / 4), sextetChar (a % 4 * 16 + b / 16), sextetChar (b % 16 * 4), '=']
  | a :: b :: c :: rest =>
    sextetChar (a / 4) :: sextetChar (a % 4 * 16 + b / 16) ::
      sextetChar (b % 16 * 4 + c / 64) :: sextetChar (c % 64) :: b64encode rest

/-- `base64::decode`: standard alphabet with the padding produced by
`b64encode`; rejects invalid characters, invalid lengths and non-zero
trailing bits (`'='` anywhere but in a final pad position is an invalid
character). -/
def b64decode : Str → Option (List Nat)
  | [] => some []
  | c1 :: c2 :: c3 :: c4 :: rest =>
    if rest = [] ∧ c3 = '=' ∧ c4 = '=' then do
      let s1 ← sextetVal c1
      let s2 ← sextetVal c2
      if s2 % 16 = 0 then some [s1 * 4 + s2 / 16] else none
    else if rest = [] ∧ c4 = '=' then do
      let s1 ← sextetVal c1
      let s2 ← sextetVal c2
      let s3 ← sextetVal c3
      if s3 % 4 = 0 then some [s1 * 4 + s2 / 16, s2 % 16 * 16 + s3 / 4] else none
    else do
      let s1 ← sextetVal c1
      let s2 ← sextetVal c2
      let s3 ← sextetVal c3
      let s4 ← sextetVal c4
      let tail ← b64decode rest
      some ((s1 * 4 + s2 / 16) :: (s2 % 16 * 16 + s3 / 4) :: (s3 % 4 * 64 + s4) :: tail)
  | _ => none

/-! ## Verify pipeline -/

/-- The `for header_name in ...` loop of `verify_signature_parts`: for each
name append `"(request-target): <lower method> <uri>\n"` or
`"<name>: <value>\n"` (first value, case-insensitive lookup), or abort
(`return Ok(false)`) when a name is missing from the request. -/
def buildLines (req : Request) : List Str → Option Str
  | [] => some []
  | name :: rest =>
    if name = "(request-target)".data then
      (buildLines req rest).map
        (fun s => "(request-target): ".data ++ lowerChars req.method ++ ' ' :: req.uri ++ '\n' :: s)
    else
      match req.getHeader name with
      | some v => (buildLines req rest).map (fun s => name ++ ": ".data ++ v ++ '\n' :: s)
      | none => none

deriving instance DecidableEq for Except

/-- `verify_signature_parts` of `src/lib.rs`: base64-decode the signature
(`Err` on failure), build the canonical bytes from the parsed header list
(defaulting to `"date"`), pop the trailing newline — falling back to
`"date: <value>"` when the buffer is empty — and run the verifier. -/
def verify_signature_parts (verifyFn : Str → List Nat → Bool) (req : Request)
    (parts : SignatureParts) : Except Unit Bool :=
  match b64decode parts.signature with
  | none => .error ()
  | some signature =>
    match buildLines req (splitChar ' ' (parts.headers.getD "date".data)) with
    | none => .ok false
    | some to_verify =>
      if to_verify = [] then
        match req.getHeader "date".data with
        | some date => .ok (verifyFn ("date: ".data ++ date) signature)
        | none => .ok false
      else .ok (verifyFn to_verify.dropLast signature)

/-- `verify_request` of `src/lib.rs`. -/
def verify_request (verifyFn : Str → List Nat → Bool) (req : Request) : Except Unit Bool :=
  match req.getHeader "signature".data with
  | none => .ok false
  | some signature =>
    match parse_signature_parts signature with
    | none => .ok false
    | some parts => verify_signature_parts verifyFn req parts

/-! ## Sign pipeline -/

/-- The payload built by `compute_signature`: the `(request-target)` line
followed by one `\n<name>: <value>` per header pair in iteration order. -/
def signingPayload (req : Request) : Str :=
  "(request-target): ".data ++ lowerChars req.method ++ ' ' :: req.uri
    ++ (req.headers.map (fun p => '\n' :: (p.1 ++ ": ".data ++ p.2))).flatten

/-- `compute_signature` of `src/lib.rs`, with the openssl signer abstracted
as `signFn`. -/
def compute_signature (signFn : Str → List Nat) (req : Request) : List Nat :=
  signFn (signingPayload req)

/-- `create_signature_header` of `src/lib.rs`:
`keyId="<kid>",headers="(request-target) <names...>",signature="<b64>"`. -/
def create_signature_header (signFn : Str → List Nat) (key_id : Str) (req : Request) : Str :=
  "keyId=\"".data ++ key_id ++ "\",headers=\"(request-target)".data
    ++ (req.headers.map (fun p => ' ' :: p.1)).flatten
    ++ "\",signature=\"".data ++ b64encode (compute_signature signFn req) ++ "\"".data

/-- `request.headers_mut().remove("signature")`: drop the signature entry. -/
def stripSignature (req : Request) : Request :=
  { req with headers := req.headers.filter (fun p => !(p.1 == "signature".data)) }

/-- A character `http::HeaderValue::from_str` accepts: every byte must be
tab or in `32..=255` excluding `127` (a Lean char above `127` encodes to
UTF-8 bytes that are all `≥ 128`, hence accepted). -/
def headerValueByteOK (c : Char) : Prop :=
  c = '\t' ∨ (32 ≤ c.toNat ∧ c.toNat ≠ 127)

instance (c : Char) : Decidable (headerValueByteOK c) := by
  unfold headerValueByteOK
  infer_instance

/-- `header.parse::<HeaderValue>()` succeeds iff every character of the
header string is accepted by `HeaderValue::from_str`. -/
def isValidHeaderValue (s : Str) : Bool :=
  s.all fun c => decide (headerValueByteOK c)

/-- `add_signature_header` of `src/lib.rs`, with the `&mut` request passed
and returned by value: remove any existing `Signature` header, compute the
new header over the remaining request, and insert it. The returned
`Except` is the function's `Result`: `header.parse::<HeaderValue>()?`
fails when the header string contains a control character, and on that
path the old signature header has already been removed and no new one is
inserted. -/
def add_signature_header (signFn : Str → List Nat) (key_id : Str) (req : Request) :
    Request × Except Unit Unit :=
  let req' := stripSignature req
  let header := create_signature_header signFn key_id req'
  if isValidHeaderValue header then
    ({ req' with headers := req'.headers ++ [("signature".data, header)] }, .ok ())
  else (req', .error ())

/-! ## Well-formedness side conditions

These record invariants of the `http` crate's types, not extra
restrictions: a `HeaderName` is a nonempty RFC 7230 token stored
lower-cased, so it contains none of `',' '"' ' ' '('`. -/

/-- The consequences of `http::HeaderName` validity that the proofs use. -/
def headerNameOK (n : Str) : Prop :=
  n ≠ [] ∧ lowerChars n = n ∧ ∀ c ∈ n, c ≠ ',' ∧ c ≠ '"' ∧ c ≠ ' ' ∧ c ≠ '('

instance (n : Str) : Decidable (headerNameOK n) := by
  unfold headerNameOK; infer_instance

/-- A request whose header names satisfy the `http::HeaderName` invariant. -/
def Request.WF (req : Request) : Prop := ∀ p ∈ req.headers, headerNameOK p.1

instance (req : Request) : Decidable req.WF := by
  unfold Request.WF; infer_instance

/-- A matching key pair, abstracted: verifying a payload against the
signature produced for it succeeds. -/
def MatchingPair (signFn : Str → List Nat) (verifyFn : Str → List Nat → Bool) : Prop :=
  ∀ m, verifyFn m (signFn m) = true

/-- The signer produces bytes (each `< 256`), as any real signer does. -/
def SignerBytes (signFn : Str → List Nat) : Prop :=
  ∀ m, ∀ b ∈ signFn m, b < 256

end HttpSig

namespace HttpSig

/-! ## Helper lemmas -/

theorem intercalate_cons_flatten (s x : Str) (l : List Str) :
    List.intercalate s (x :: l) = x ++ (l.map (fun t => s ++ t)).flatten := by
  induction l generalizing x with
  | nil => simp [List.intercalate]
  | cons y t ih =>
    have h := ih y
    simp only [List.intercalate, List.intersperse_cons_cons, List.flatten_cons] at h ⊢
    simp [h, List.append_assoc]

theorem flatten_newline_shift (x : Str) (l : List Str) :
    x ++ '\n' :: (l.map (fun t => t ++ ['\n'])).flatten
      = (x ++ (l.map (fun t => '\n' :: t)).flatten) ++ ['\n'] := by
  induction l generalizing x with
  | nil => simp
  | cons s t ih =>
    have h := ih (x ++ '\n' :: s)
    simp only [List.map_cons, List.flatten_cons]
    simp only [List.append_assoc, List.cons_append, List.nil_append] at h ⊢
    exact h

end HttpSig

namespace HttpSig

/-! ## C2 — sign-mode canonical string -/

/-- **C2.** Sign-mode canonical string: `compute_signature` signs exactly
the `(request-target)` line (lowercased method, then the uri) followed by
one `<name>: <value>` line per request header in iteration order, joined
by single `'\n'` separators with no trailing newline. -/
theorem claim2_sign_canonical (signFn : Str → List Nat) (req : Request) :
    compute_signature signFn req =
      signFn (List.intercalate ['\n']
        (("(request-target): ".data ++ lowerChars req.method ++ ' ' :: req.uri)
          :: req.headers.map (fun p => p.1 ++ ": ".data ++ p.2))) := by
  have h := intercalate_cons_flatten ['\n']
    ("(request-target): ".data ++ lowerChars req.method ++ ' ' :: req.uri)
    (req.headers.map (fun p => p.1 ++ ": ".data ++ p.2))
  simp only [compute_signature, signingPayload, h, List.map_map]
  congr 1

/-! ## C5 — default-headers equivalence -/

/-- **C5.** A parsed `Signature` header with no `headers` parameter is
verified over exactly the same canonical bytes — and with the same
outcome — as the identical parts with `headers="date"`. -/
theorem claim5_default_headers_equiv (verifyFn : Str → List Nat → Bool) (req : Request)
    (kid sig : Str) (alg : Option Str) :
    verify_signature_parts verifyFn req ⟨none, kid, sig, alg⟩
        = verify_signature_parts verifyFn req ⟨some "date".data, kid, sig, alg⟩ ∧
      buildLines req (splitChar ' ' ((none : Option Str).getD "date".data))
        = buildLines req (splitChar ' ' ((some "date".data : Option Str).getD "date".data)) :=
  ⟨rfl, rfl⟩

/-! ## C9 — signer frame and self-exclusion -/

/-- **C9.** `add_signature_header` removes any pre-existing `Signature`
header before the new one is computed (signing the stripped request is
the same as signing the original), leaves method, uri, body, and all
non-signature headers unchanged — also on the error path, where the old
signature header is gone and nothing was inserted — stores, when it
succeeds, exactly the header computed over the stripped request, and the
stripped request — the one whose headers are signed and listed — carries
no signature header. -/
theorem claim9_signer_frame (signFn : Str → List Nat) (key_id : Str) (req : Request) :
    add_signature_header signFn key_id req
        = add_signature_header signFn key_id (stripSignature req) ∧
      (add_signature_header signFn key_id req).1.method = req.method ∧
      (add_signature_header signFn key_id req).1.uri = req.uri ∧
      (add_signature_header signFn key_id req).1.body = req.body ∧
      (stripSignature (add_signature_header signFn key_id req).1).headers
        = (stripSignature req).headers ∧
      ((add_signature_header signFn key_id req).2 = .ok () →
        (add_signature_header signFn key_id req).1.getHeader "signature".data
          = some (create_signature_header signFn key_id (stripSignature req))) ∧
      ((add_signature_header signFn key_id req).2 = .error () →
        (add_signature_header signFn key_id req).1.getHeader "signature".data = none) ∧
      ∀ n ∈ (stripSignature req).headers.map Prod.fst, n ≠ "signature".data := by
  have hstrip : stripSignature (stripSignature req) = stripSignature req := by
    simp [stripSignature, List.filter_filter]
  have hnone : (stripSignature req).headers.find?
      (fun p => p.1 == lowerChars "signature".data) = none := by
    rw [List.find?_eq_none]
    intro p hp
    have hmem := (List.mem_filter.mp hp).2
    simp only [Bool.not_eq_true'] at hmem
    simpa [lowerChars] using hmem
  by_cases hv : isValidHeaderValue
      (create_signature_header signFn key_id (stripSignature req)) = true
  · have hadd : add_signature_header signFn key_id req
        = ({ stripSignature req with
              headers := (stripSignature req).headers
                ++ [("signature".data,
                      create_signature_header signFn key_id (stripSignature req))] },
            .ok ()) := by
      simp only [add_signature_header]
      rw [if_pos hv]
    refine ⟨?_, ?_, ?_, ?_, ?_, ?_, ?_, ?_⟩
    · simp only [add_signature_header, hstrip]
    · rw [hadd]; rfl
    · rw [hadd]; rfl
    · rw [hadd]; rfl
    · rw [hadd]
      simp only [stripSignature, List.filter_append]
      simp [List.filter_filter]
    · intro _
      rw [hadd]
      unfold Request.getHeader
      simp only [List.find?_append, hnone]
      simp [lowerChars]
    · intro hcontra
      rw [hadd] at hcontra
      cases hcontra
    · intro n hn
      rcases List.mem_map.mp hn with ⟨p, hp, rfl⟩
      have hmem := (List.mem_filter.mp hp).2
      simpa using hmem
  · have hadd : add_signature_header signFn key_id req = (stripSignature req, .error ()) := by
      simp only [add_signature_header]
      rw [if_neg hv]
    refine ⟨?_, ?_, ?_, ?_, ?_, ?_, ?_, ?_⟩
    · simp only [add_signature_header, hstrip]
    · rw [hadd]; rfl
    · rw [hadd]; rfl
    · rw [hadd]; rfl
    · rw [hadd]
      exact congrArg Request.headers hstrip
    · intro hcontra
      rw [hadd] at hcontra
      cases hcontra
    · intro _
      rw [hadd]
      unfold Request.getHeader
      rw [hnone]
      rfl
    · intro n hn
      rcases List.mem_map.mp hn with ⟨p, hp, rfl⟩
      have hmem := (List.mem_filter.mp hp).2
      simpa using hmem

end HttpSig

namespace HttpSig

/-! ## C3 — verify error mapping -/

theorem buildLines_missing (req : Request) (names : List Str) (name : Str)
    (hmem : name ∈ names) (hrt : name ≠ "(request-target)".data)
    (hmiss : req.getHeader name = none) : buildLines req names = none := by
  induction names with
  | nil => cases hmem
  | cons n rest ih =>
    rcases List.mem_cons.mp hmem with heq | hmem'
    · subst heq
      simp only [buildLines, if_neg hrt, hmiss]
    · by_cases hn : n = "(request-target)".data
      · simp only [buildLines, if_pos hn, ih hmem', Option.map_none']
      · simp only [buildLines, if_neg hn]
        cases hget : req.getHeader n with
        | none => rfl
        | some v => simp only [ih hmem', Option.map_none']

/-- **C3.** Error mapping of `verify_request`: `Ok(false)` when the
request has no `Signature` header, when the header value fails to parse,
or when (the signature being decodable) a named header is absent from the
request; a hard `Err` when the parsed signature field is not valid
base64. -/
theorem claim3_verify_error_mapping (verifyFn : Str → List Nat → Bool) (req : Request) :
    (req.getHeader "signature".data = none → verify_request verifyFn req = .ok false) ∧
    (∀ sv, req.getHeader "signature".data = some sv → parse_signature_parts sv = none →
      verify_request verifyFn req = .ok false) ∧
    (∀ sv parts, req.getHeader "signature".data = some sv →
      parse_signature_parts sv = some parts → b64decode parts.signature = none →
      verify_request verifyFn req = .error ()) ∧
    (∀ sv parts name, req.getHeader "signature".data = some sv →
      parse_signature_parts sv = some parts → b64decode parts.signature ≠ none →
      name ∈ splitChar ' ' (parts.headers.getD "date".data) →
      name ≠ "(request-target)".data → req.getHeader name = none →
      verify_request verifyFn req = .ok false) := by
  refine ⟨?_, ?_, ?_, ?_⟩
  · intro h; simp only [verify_request, h]
  · intro sv h hp; simp only [verify_request, h, hp]
  · intro sv parts h hp hb
    simp only [verify_request, h, hp, verify_signature_parts, hb]
  · intro sv parts name h hp hb hmem hrt hmiss
    cases hdec : b64decode parts.signature with
    | none => exact absurd hdec hb
    | some sig =>
      simp only [verify_request, h, hp, verify_signature_parts, hdec,
        buildLines_missing req _ name hmem hrt hmiss]

def vfTrue : Str → List Nat → Bool := fun _ _ => true

def reqNoSig : Request := ⟨"GET".data, "/".data, [], []⟩

def reqBadParse : Request := ⟨"GET".data, "/".data, [("signature".data, "nonsense".data)], []⟩

def reqBadB64 : Request :=
  ⟨"GET".data, "/".data, [("signature".data, "keyId=\"k\",signature=\"%%%%\"".data)], []⟩

def reqMissingDate : Request :=
  ⟨"GET".data, "/".data, [("signature".data, "keyId=\"k\",signature=\"\"".data)], []⟩

theorem claim3_verify_error_mapping_witness :
    verify_request vfTrue reqNoSig = .ok false ∧
    verify_request vfTrue reqBadParse = .ok false ∧
    verify_request vfTrue reqBadB64 = .error () ∧
    verify_request vfTrue reqMissingDate = .ok false :=
  ⟨(claim3_verify_error_mapping vfTrue reqNoSig).1 (by decide),
   (claim3_verify_error_mapping vfTrue reqBadParse).2.1
     "nonsense".data (by decide) (by decide),
   (claim3_verify_error_mapping vfTrue reqBadB64).2.2.1
     "keyId=\"k\",signature=\"%%%%\"".data ⟨none, "k".data, "%%%%".data, none⟩
     (by decide) (by decide) (by decide),
   (claim3_verify_error_mapping vfTrue reqMissingDate).2.2.2
     "keyId=\"k\",signature=\"\"".data ⟨none, "k".data, [], none⟩ "date".data
     (by decide) (by decide) (by decide) (by decide) (by decide) (by decide)⟩

/-! ## C7 — quote stripping (corrected: all edge quotes are stripped) -/

theorem dropWhile_replicate_quote (k : Nat) (t : Str) :
    (List.replicate k '"' ++ t).dropWhile (· == '"') = t.dropWhile (· == '"') := by
  induction k with
  | zero => rfl
  | succ k ih =>
    rw [List.replicate_succ, List.cons_append, List.dropWhile_cons_of_pos (by decide), ih]

theorem dropWhile_of_head_ne (l : Str) (h : l.head? ≠ some '"') :
    l.dropWhile (· == '"') = l := by
  cases l with
  | nil => rfl
  | cons x xs =>
    refine List.dropWhile_cons_of_neg ?_
    simp only [List.head?_cons, ne_eq, Option.some.injEq] at h
    simp [h]

/-- **C7 counterexample.** On the segment `keyId=""a""`, the claim says
exactly one leading and one trailing quote come off, storing `"a"`; the
code's `trim_start_matches`/`trim_end_matches` strip all of them and
store `a`. -/
theorem claim7_counterexample :
    (parse_signature_parts "keyId=\"\"a\"\",signature=\"s\"".data).map SignatureParts.key_id
        = some "a".data ∧
      some "a".data ≠ some "\"a\"".data :=
  ⟨by decide, by decide⟩

/-- **C7 amended.** The stored value is the quoted value with *all*
leading and *all* trailing double quotes removed (interior characters,
including interior quotes, are untouched); this coincides with removing
exactly one quote from each end whenever the remaining value neither
starts nor ends with a quote. -/
theorem claim7_trim_amended (m n : Nat) (w : Str)
    (h1 : w.head? ≠ some '"') (h2 : w.getLast? ≠ some '"') :
    trimQuotes (List.replicate m '"' ++ w ++ List.replicate n '"') = w := by
  unfold trimQuotes
  rw [List.append_assoc, dropWhile_replicate_quote]
  cases w with
  | nil =>
    have h0 : (List.replicate n '"').dropWhile (· == '"') = [] := by
      have h := dropWhile_replicate_quote n []
      simp only [List.append_nil] at h
      exact h
    simp [h0]
  | cons x xs =>
    have hx : (x :: xs).head? ≠ some '"' := h1
    rw [List.cons_append, List.dropWhile_cons_of_neg (by
      simp only [List.head?_cons, ne_eq, Option.some.injEq] at hx
      simp [hx])]
    rw [← List.cons_append, List.reverse_append, List.reverse_replicate,
      dropWhile_replicate_quote, dropWhile_of_head_ne _ (by
        rw [List.head?_reverse]; exact h2),
      List.reverse_reverse]

theorem claim7_trim_amended_witness :
    trimQuotes (List.replicate 2 '"' ++ "abc".data ++ List.replicate 3 '"') = "abc".data :=
  claim7_trim_amended 2 3 "abc".data (by decide) (by decide)

end HttpSig

namespace HttpSig

/-! ## C8 — empty-headers fallback (corrected: the fallback is dead code) -/

def reqWithDate : Request := ⟨"GET".data, "/".data, [("date".data, "today".data)], []⟩

/-- **C8 counterexample.** With an explicitly empty `headers` parameter
and a request that does have a `date` header, the claim predicts the
builder emits `date: today` and verification proceeds (so an always-true
verifier returns `Ok(true)`); the code instead looks up the empty-named
header produced by splitting `""`, fails, and returns `Ok(false)`. -/
theorem claim8_counterexample :
    verify_signature_parts (fun _ _ => true) reqWithDate ⟨some [], "k".data, [], none⟩
        = .ok false ∧
      reqWithDate.getHeader "date".data = some "today".data :=
  ⟨by decide, by decide⟩

/-- **C8 amended.** An explicitly empty `headers` parameter yields the
single empty-string name, whose lookup fails, so verification returns
`Ok(false)` without ever reaching the `date` fallback; the fallback is
unreachable, since the split name list is never empty and every
successfully built buffer over a nonempty name list is nonempty. -/
theorem claim8_empty_headers_amended (verifyFn : Str → List Nat → Bool) (req : Request)
    (parts : SignatureParts) (sig : List Nat) (hwf : req.WF)
    (hempty : parts.headers = some []) (hdec : b64decode parts.signature = some sig) :
    verify_signature_parts verifyFn req parts = .ok false ∧
    (∀ names buf, buildLines req names = some buf → names ≠ [] → buf ≠ []) ∧
    ∀ (c : Char) (s : Str), splitChar c s ≠ [] := by
  refine ⟨?_, ?_, ?_⟩
  · have hget : req.getHeader [] = none := by
      simp only [Request.getHeader, Option.map_eq_none']
      rw [List.find?_eq_none]
      intro p hp
      have h1 := (hwf p hp).1
      simp only [lowerChars, List.map_nil, beq_iff_eq]
      exact h1
    simp only [verify_signature_parts, hdec, hempty, Option.getD_some]
    have hsplit : splitChar ' ' ([] : Str) = [[]] := rfl
    rw [hsplit]
    simp only [buildLines, hget]
    rw [if_neg (by decide)]
  · intro names buf hbuild hne
    cases names with
    | nil => exact absurd rfl hne
    | cons n rest =>
      simp only [buildLines] at hbuild
      by_cases hn : n = "(request-target)".data
      · rw [if_pos hn] at hbuild
        rcases Option.map_eq_some'.mp hbuild with ⟨s0, _, rfl⟩
        simp
      · rw [if_neg hn] at hbuild
        cases hget : req.getHeader n with
        | none => rw [hget] at hbuild; cases hbuild
        | some v =>
          rw [hget] at hbuild
          rcases Option.map_eq_some'.mp hbuild with ⟨s0, _, rfl⟩
          simp
  · intro c s
    induction s with
    | nil => simp [splitChar]
    | cons x xs ih =>
      simp only [splitChar]
      by_cases hx : x = c
      · simp [hx]
      · rw [if_neg hx]
        cases hsc : splitChar c xs with
        | nil => simp
        | cons r rs => simp

theorem claim8_empty_headers_amended_witness :
    verify_signature_parts (fun _ _ => false) reqWithDate ⟨some [], "k".data, [], none⟩
        = .ok false :=
  (claim8_empty_headers_amended (fun _ _ => false) reqWithDate
    ⟨some [], "k".data, [], none⟩ [] (by decide) rfl (by decide)).1

end HttpSig

namespace HttpSig

/-! ## C6 — case-insensitive lookup, name casing preserved -/

theorem find?_lower_congr (l : List (Str × Str)) (hl : ∀ p ∈ l, lowerChars p.1 = p.1)
    (name : Str) :
    l.find? (fun p => p.1 == lowerChars name)
      = l.find? (fun p => lowerChars p.1 == lowerChars name) := by
  induction l with
  | nil => rfl
  | cons p t ih =>
    have hp := hl p (List.mem_cons_self p t)
    have iht := ih fun q hq => hl q (List.mem_cons_of_mem p hq)
    simp only [List.find?_cons, hp, iht]

/-- **C6.** Verify-mode lookup is case-insensitive while the emitted line
keeps the supplied casing: whenever some request header matches `name`
case-insensitively (the first such pair being `(n, v)`), the lookup
succeeds with `v`, and the canonical line is `name ++ ": " ++ v` — the
name exactly as supplied, the value as-is. -/
theorem claim6_case_insensitive_lookup (req : Request) (hwf : req.WF) (name n v : Str)
    (hname : name ≠ "(request-target)".data)
    (hfind : req.headers.find? (fun p => lowerChars p.1 == lowerChars name) = some (n, v)) :
    req.getHeader name = some v ∧
    ∀ rest, buildLines req (name :: rest)
      = (buildLines req rest).map (fun s => name ++ ": ".data ++ v ++ '\n' :: s) := by
  have hget : req.getHeader name = some v := by
    unfold Request.getHeader
    rw [find?_lower_congr req.headers (fun p hp => (hwf p hp).2.1) name, hfind]
    rfl
  exact ⟨hget, fun rest => by simp only [buildLines, if_neg hname, hget]⟩

def reqMixedCase : Request := ⟨"GET".data, "/".data, [("content-type".data, "a".data)], []⟩

theorem claim6_case_insensitive_lookup_witness :
    reqMixedCase.getHeader "Content-Type".data = some "a".data ∧
    buildLines reqMixedCase ["Content-Type".data] = some "Content-Type: a\n".data := by
  have h := claim6_case_insensitive_lookup reqMixedCase (by decide) "Content-Type".data
    "content-type".data "a".data (by decide) (by decide)
  exact ⟨h.1, (h.2 []).trans (by decide)⟩

/-! ## C10 — first-value-only lookup vs per-pair signing -/

/-- **C10.** When a header name is mapped to more than one value, every
verify-mode canonical line for that name uses only the first stored
value, while the sign-mode payload contains one line per (name, value)
pair in iteration order — here both `v₁` and `v₂` in order. -/
theorem claim10_first_value_only (req : Request) (pre mid post : List (Str × Str))
    (n v₁ v₂ : Str)
    (hsplit : req.headers = pre ++ (n, v₁) :: mid ++ (n, v₂) :: post)
    (hpre : ∀ p ∈ pre, p.1 ≠ n) (hlow : lowerChars n = n)
    (hn : n ≠ "(request-target)".data) :
    req.getHeader n = some v₁ ∧
    (∀ rest, buildLines req (n :: rest)
      = (buildLines req rest).map (fun s => n ++ ": ".data ++ v₁ ++ '\n' :: s)) ∧
    ∃ A B C, signingPayload req
      = A ++ ('\n' :: (n ++ ": ".data ++ v₁)) ++ B ++ ('\n' :: (n ++ ": ".data ++ v₂)) ++ C := by
  have hget : req.getHeader n = some v₁ := by
    have h1 : pre.find? (fun p => p.1 == n) = none :=
      List.find?_eq_none.mpr fun p hp => by simp [hpre p hp]
    unfold Request.getHeader
    rw [hsplit, hlow]
    simp [List.find?_append, h1, List.find?_cons]
  refine ⟨hget, fun rest => by simp only [buildLines, if_neg hn, hget], ?_⟩
  refine ⟨"(request-target): ".data ++ lowerChars req.method ++ ' ' :: req.uri
      ++ (pre.map (fun p => '\n' :: (p.1 ++ ": ".data ++ p.2))).flatten,
    (mid.map (fun p => '\n' :: (p.1 ++ ": ".data ++ p.2))).flatten,
    (post.map (fun p => '\n' :: (p.1 ++ ": ".data ++ p.2))).flatten, ?_⟩
  simp only [signingPayload, hsplit, List.map_append, List.map_cons,
    List.flatten_append, List.flatten_cons]
  simp [List.append_assoc]

def reqDupHeader : Request :=
  ⟨"GET".data, "/".data, [("x-a".data, "1".data), ("x-a".data, "2".data)], []⟩

theorem claim10_first_value_only_witness :
    reqDupHeader.getHeader "x-a".data = some "1".data ∧
    buildLines reqDupHeader ["x-a".data] = some "x-a: 1\n".data ∧
    ∃ A B C, signingPayload reqDupHeader
      = A ++ ('\n' :: ("x-a".data ++ ": ".data ++ "1".data))
          ++ B ++ ('\n' :: ("x-a".data ++ ": ".data ++ "2".data)) ++ C := by
  have h := claim10_first_value_only reqDupHeader [] [] [] "x-a".data "1".data "2".data
    rfl (by simp) (by decide) (by decide)
  exact ⟨h.1, (h.2.1 []).trans (by decide), h.2.2⟩

end HttpSig

namespace HttpSig

/-! ## C4 — parser rejection set -/

/-- A comma segment the parser rejects: either it contains no `=`, or its
value after the first `=` is not wrapped in a leading and a trailing
double-quote character. -/
def segmentBad (part : Str) : Prop :=
  splitFirst '=' part = none ∨
    ∃ kv, splitFirst '=' part = some kv ∧
      ¬(kv.2.head? = some '"' ∧ kv.2.getLast? = some '"')

instance (part : Str) : Decidable (segmentBad part) := by
  unfold segmentBad
  cases splitFirst '=' part <;> simp <;> infer_instance

theorem parseSegments_cons_of_none (p : Str) (t : List Str) (acc : ParseAcc)
    (h : splitFirst '=' p = none) : parseSegments (p :: t) acc = none := by
  obtain ⟨hs, kid, alg, sig⟩ := acc
  simp [parseSegments, h]

theorem parseSegments_cons_of_some (p : Str) (t : List Str)
    (hs kid alg sig : Option Str) (k w : Str) (h : splitFirst '=' p = some (k, w)) :
    parseSegments (p :: t) (hs, kid, alg, sig) =
      if !(w.head? == some '"' && w.getLast? == some '"') then none
      else if k = "headers".data then parseSegments t (some (trimQuotes w), kid, alg, sig)
      else if k = "keyId".data then parseSegments t (hs, some (trimQuotes w), alg, sig)
      else if k = "algorithm".data then parseSegments t (hs, kid, some (trimQuotes w), sig)
      else if k = "signature".data then parseSegments t (hs, kid, alg, some (trimQuotes w))
      else parseSegments t (hs, kid, alg, sig) := by
  simp only [parseSegments, h]

theorem parseSegments_none_iff (parts : List Str) (acc : ParseAcc) :
    parseSegments parts acc = none ↔ ∃ part ∈ parts, segmentBad part := by
  induction parts generalizing acc with
  | nil =>
    obtain ⟨hs, kid, alg, sig⟩ := acc
    simp [parseSegments]
  | cons p t ih =>
    obtain ⟨hs, kid, alg, sig⟩ := acc
    rw [List.exists_mem_cons_iff]
    cases hsp : splitFirst '=' p with
    | none =>
      refine iff_of_true (parseSegments_cons_of_none p t _ hsp) (Or.inl (Or.inl hsp))
    | some kv =>
      obtain ⟨k, w⟩ := kv
      rw [parseSegments_cons_of_some p t hs kid alg sig k w hsp]
      by_cases hq : w.head? = some '"' ∧ w.getLast? = some '"'
      · rw [if_neg (by simp [hq.1, hq.2])]
        have hpgood : ¬segmentBad p := by
          rintro (h | ⟨kv, hkv, hnq⟩)
          · rw [hsp] at h; cases h
          · rw [hsp] at hkv
            injection hkv with h'
            subst h'
            exact hnq hq
        simp only [hpgood, false_or]
        split_ifs <;> exact ih _
      · rw [if_pos (by
          rcases Decidable.not_and_iff_or_not.mp hq with h | h <;> simp [h])]
        exact iff_of_true rfl (Or.inl (Or.inr ⟨(k, w), hsp, hq⟩))

theorem forall_ne_pair_of_key_ne (k w key : Str) (hk : k ≠ key) :
    ∀ w' : Str, ¬((some (k, w) : Option (Str × Str)) = some (key, w')) := by
  intro w' hkv
  injection hkv with h'
  exact hk (congrArg Prod.fst h')

theorem and_iff_and_of_left (P Q R : Prop) (hQ : Q) : (P ∧ R) ↔ P ∧ (Q ∧ R) := by tauto

theorem parseSegments_capture (parts : List Str) (acc res : ParseAcc)
    (h : parseSegments parts acc = some res) :
    (res.2.1 = none ↔ acc.2.1 = none ∧
        ∀ part ∈ parts, ∀ w, splitFirst '=' part ≠ some ("keyId".data, w)) ∧
    (res.2.2.2 = none ↔ acc.2.2.2 = none ∧
        ∀ part ∈ parts, ∀ w, splitFirst '=' part ≠ some ("signature".data, w)) := by
  induction parts generalizing acc with
  | nil =>
    obtain ⟨hs, kid, alg, sig⟩ := acc
    simp only [parseSegments, Option.some.injEq] at h
    subst h
    simp
  | cons p t ih =>
    obtain ⟨hs, kid, alg, sig⟩ := acc
    cases hsp : splitFirst '=' p with
    | none => rw [parseSegments_cons_of_none p t _ hsp] at h; cases h
    | some kv =>
      obtain ⟨k, w⟩ := kv
      rw [parseSegments_cons_of_some p t hs kid alg sig k w hsp] at h
      by_cases hq : (!(w.head? == some '"' && w.getLast? == some '"')) = true
      · rw [if_pos hq] at h; cases h
      · rw [if_neg hq] at h
        simp only [List.forall_mem_cons, hsp, ne_eq]
        split_ifs at h with h1 h2 h3 h4
        · have hcap := ih _ h
          subst h1
          refine ⟨?_, ?_⟩
          · rw [hcap.1]
            exact and_iff_and_of_left _ _ _
              (forall_ne_pair_of_key_ne _ w _ (by decide))
          · rw [hcap.2]
            exact and_iff_and_of_left _ _ _
              (forall_ne_pair_of_key_ne _ w _ (by decide))
        · have hcap := ih _ h
          subst h2
          refine ⟨?_, ?_⟩
          · rw [hcap.1]
            exact iff_of_false (fun hc => by cases hc.1) (fun hc => hc.2.1 w rfl)
          · rw [hcap.2]
            exact and_iff_and_of_left _ _ _
              (forall_ne_pair_of_key_ne _ w _ (by decide))
        · have hcap := ih _ h
          subst h3
          refine ⟨?_, ?_⟩
          · rw [hcap.1]
            exact and_iff_and_of_left _ _ _
              (forall_ne_pair_of_key_ne _ w _ (by decide))
          · rw [hcap.2]
            exact and_iff_and_of_left _ _ _
              (forall_ne_pair_of_key_ne _ w _ (by decide))
        · have hcap := ih _ h
          subst h4
          refine ⟨?_, ?_⟩
          · rw [hcap.1]
            exact and_iff_and_of_left _ _ _
              (forall_ne_pair_of_key_ne _ w _ (by decide))
          · rw [hcap.2]
            exact iff_of_false (fun hc => by cases hc.1) (fun hc => hc.2.1 w rfl)
        · have hcap := ih _ h
          refine ⟨?_, ?_⟩
          · rw [hcap.1]
            exact and_iff_and_of_left _ _ _ (forall_ne_pair_of_key_ne _ w _ h2)
          · rw [hcap.2]
            exact and_iff_and_of_left _ _ _ (forall_ne_pair_of_key_ne _ w _ h4)

/-- **C4.** `parse_signature_parts` returns `none` exactly when some
comma segment contains no `=`, or some segment's value is not wrapped in
a leading and a trailing double quote, or no segment carries the `keyId`
key, or no segment carries the `signature` key; in every other case it
returns `some` (unknown keys are scanned but ignored). -/
theorem claim4_parser_rejection_iff (s : Str) :
    parse_signature_parts s = none ↔
      (∃ part ∈ splitChar ',' s, segmentBad part) ∨
      (∀ part ∈ splitChar ',' s, ∀ w, splitFirst '=' part ≠ some ("keyId".data, w)) ∨
      (∀ part ∈ splitChar ',' s, ∀ w, splitFirst '=' part ≠ some ("signature".data, w)) := by
  unfold parse_signature_parts
  cases hps : parseSegments (splitChar ',' s) (none, none, none, none) with
  | none =>
    have hbad := (parseSegments_none_iff _ _).mp hps
    exact iff_of_true rfl (Or.inl hbad)
  | some res =>
    obtain ⟨hs, kid, alg, sig⟩ := res
    have hnotbad : ¬∃ part ∈ splitChar ',' s, segmentBad part := fun hb => by
      rw [(parseSegments_none_iff _ _).mpr hb] at hps
      cases hps
    have hcap := parseSegments_capture _ _ _ hps
    simp only at hcap
    cases kid with
    | none =>
      refine iff_of_true rfl (Or.inr (Or.inl ?_))
      exact (hcap.1.mp rfl).2
    | some k =>
      cases sig with
      | none =>
        refine iff_of_true rfl (Or.inr (Or.inr ?_))
        exact (hcap.2.mp rfl).2
      | some s' =>
        refine iff_of_false (by simp) ?_
        rintro (hb | hforall | hforall)
        · exact hnotbad hb
        · have hcontra := hcap.1.mpr ⟨trivial, hforall⟩
          cases hcontra
        · have hcontra := hcap.2.mpr ⟨trivial, hforall⟩
          cases hcontra

end HttpSig

namespace HttpSig

theorem sextetVal_sextetChar : ∀ n < 64, sextetVal (sextetChar n) = some n := by decide

theorem sextetChar_notin : ∀ n < 64,
    sextetChar n ≠ ',' ∧ sextetChar n ≠ '"' ∧ sextetChar n ≠ '=' := by decide

theorem b64encode_ne_nil (bs : List Nat) (h : bs ≠ []) : b64encode bs ≠ [] := by
  match bs with
  | [] => exact absurd rfl h
  | [a] => simp [b64encode]
  | [a, b] => simp [b64encode]
  | a :: b :: c :: rest => simp [b64encode]

theorem b64decode_encode : ∀ (bs : List Nat), (∀ b ∈ bs, b < 256) →
    b64decode (b64encode bs) = some bs
  | [], _ => rfl
  | [a], h => by
    have ha : a < 256 := h a (by simp)
    have h1 := sextetVal_sextetChar (a / 4) (by omega)
    have h2 := sextetVal_sextetChar (a % 4 * 16) (by omega)
    have hmod : a % 4 * 16 % 16 = 0 := by omega
    simp [b64encode, b64decode, h1, h2, hmod]
    omega
  | [a, b], h => by
    have ha : a < 256 := h a (by simp)
    have hb : b < 256 := h b (by simp)
    have h1 := sextetVal_sextetChar (a / 4) (by omega)
    have h2 := sextetVal_sextetChar (a % 4 * 16 + b / 16) (by omega)
    have h3 := sextetVal_sextetChar (b % 16 * 4) (by omega)
    have hc3 : sextetChar (b % 16 * 4) ≠ '=' := (sextetChar_notin _ (by omega)).2.2
    have hmod : b % 16 * 4 % 4 = 0 := by omega
    simp [b64encode, b64decode, h1, h2, h3, hmod, hc3]
    omega
  | [a, b, c], h => by
    have ha : a < 256 := h a (by simp)
    have hb : b < 256 := h b (by simp)
    have hc : c < 256 := h c (by simp)
    have h1 := sextetVal_sextetChar (a / 4) (by omega)
    have h2 := sextetVal_sextetChar (a % 4 * 16 + b / 16) (by omega)
    have h3 := sextetVal_sextetChar (b % 16 * 4 + c / 64) (by omega)
    have h4 := sextetVal_sextetChar (c % 64) (by omega)
    have hc3 : sextetChar (b % 16 * 4 + c / 64) ≠ '=' := (sextetChar_notin _ (by omega)).2.2
    have hc4 : sextetChar (c % 64) ≠ '=' := (sextetChar_notin _ (by omega)).2.2
    simp [b64encode, b64decode, h1, h2, h3, h4, hc3, hc4]
    omega
  | a :: b :: c :: d :: rest, h => by
    have ha : a < 256 := h a (by simp)
    have hb : b < 256 := h b (by simp)
    have hc : c < 256 := h c (by simp)
    have ih := b64decode_encode (d :: rest) (fun x hx => h x (by simp [hx]))
    have h1 := sextetVal_sextetChar (a / 4) (by omega)
    have h2 := sextetVal_sextetChar (a % 4 * 16 + b / 16) (by omega)
    have h3 := sextetVal_sextetChar (b % 16 * 4 + c / 64) (by omega)
    have h4 := sextetVal_sextetChar (c % 64) (by omega)
    have hne : b64encode (d :: rest) ≠ [] := b64encode_ne_nil _ (by simp)
    simp [b64encode, b64decode, h1, h2, h3, h4, ih, hne]
    omega

end HttpSig

namespace HttpSig

/-! ## Splitting and trimming lemmas for the round trip -/

theorem b64encode_chars : ∀ (bs : List Nat), (∀ b ∈ bs, b < 256) →
    ∀ ch ∈ b64encode bs, ch ≠ ',' ∧ ch ≠ '"'
  | [], _ => by simp [b64encode]
  | [a], h => by
    have ha : a < 256 := h a (by simp)
    have k1 := sextetChar_notin (a / 4) (by omega)
    have k2 := sextetChar_notin (a % 4 * 16) (by omega)
    intro ch hch
    simp only [b64encode, List.mem_cons, List.not_mem_nil, or_false] at hch
    rcases hch with rfl | rfl | rfl | rfl
    · exact ⟨k1.1, k1.2.1⟩
    · exact ⟨k2.1, k2.2.1⟩
    · exact ⟨by decide, by decide⟩
    · exact ⟨by decide, by decide⟩
  | [a, b], h => by
    have ha : a < 256 := h a (by simp)
    have hb : b < 256 := h b (by simp)
    have k1 := sextetChar_notin (a / 4) (by omega)
    have k2 := sextetChar_notin (a % 4 * 16 + b / 16) (by omega)
    have k3 := sextetChar_notin (b % 16 * 4) (by omega)
    intro ch hch
    simp only [b64encode, List.mem_cons, List.not_mem_nil, or_false] at hch
    rcases hch with rfl | rfl | rfl | rfl
    · exact ⟨k1.1, k1.2.1⟩
    · exact ⟨k2.1, k2.2.1⟩
    · exact ⟨k3.1, k3.2.1⟩
    · exact ⟨by decide, by decide⟩
  | [a, b, c], h => by
    have ha : a < 256 := h a (by simp)
    have hb : b < 256 := h b (by simp)
    have hc : c < 256 := h c (by simp)
    have k1 := sextetChar_notin (a / 4) (by omega)
    have k2 := sextetChar_notin (a % 4 * 16 + b / 16) (by omega)
    have k3 := sextetChar_notin (b % 16 * 4 + c / 64) (by omega)
    have k4 := sextetChar_notin (c % 64) (by omega)
    intro ch hch
    simp only [b64encode, List.mem_cons, List.not_mem_nil, or_false] at hch
    rcases hch with rfl | rfl | rfl | rfl
    · exact ⟨k1.1, k1.2.1⟩
    · exact ⟨k2.1, k2.2.1⟩
    · exact ⟨k3.1, k3.2.1⟩
    · exact ⟨k4.1, k4.2.1⟩
  | a :: b :: c :: d :: rest, h => by
    have ha : a < 256 := h a (by simp)
    have hb : b < 256 := h b (by simp)
    have hc : c < 256 := h c (by simp)
    have ih := b64encode_chars (d :: rest) (fun x hx => h x (by simp [hx]))
    have k1 := sextetChar_notin (a / 4) (by omega)
    have k2 := sextetChar_notin (a % 4 * 16 + b / 16) (by omega)
    have k3 := sextetChar_notin (b % 16 * 4 + c / 64) (by omega)
    have k4 := sextetChar_notin (c % 64) (by omega)
    intro ch hch
    simp only [b64encode, List.mem_cons] at hch
    rcases hch with rfl | rfl | rfl | rfl | hmem
    · exact ⟨k1.1, k1.2.1⟩
    · exact ⟨k2.1, k2.2.1⟩
    · exact ⟨k3.1, k3.2.1⟩
    · exact ⟨k4.1, k4.2.1⟩
    · exact ih ch (by simpa using hmem)

theorem sextetChar_valid : ∀ n < 64, headerValueByteOK (sextetChar n) := by decide

theorem b64encode_valid : ∀ (bs : List Nat), (∀ b ∈ bs, b < 256) →
    ∀ ch ∈ b64encode bs, headerValueByteOK ch
  | [], _ => by simp [b64encode]
  | [a], h => by
    have ha : a < 256 := h a (by simp)
    have k1 := sextetChar_valid (a / 4) (by omega)
    have k2 := sextetChar_valid (a % 4 * 16) (by omega)
    intro ch hch
    simp only [b64encode, List.mem_cons, List.not_mem_nil, or_false] at hch
    rcases hch with rfl | rfl | rfl | rfl
    · exact k1
    · exact k2
    · exact (by decide)
    · exact (by decide)
  | [a, b], h => by
    have ha : a < 256 := h a (by simp)
    have hb : b < 256 := h b (by simp)
    have k1 := sextetChar_valid (a / 4) (by omega)
    have k2 := sextetChar_valid (a % 4 * 16 + b / 16) (by omega)
    have k3 := sextetChar_valid (b % 16 * 4) (by omega)
    intro ch hch
    simp only [b64encode, List.mem_cons, List.not_mem_nil, or_false] at hch
    rcases hch with rfl | rfl | rfl | rfl
    · exact k1
    · exact k2
    · exact k3
    · exact (by decide)
  | [a, b, c], h => by
    have ha : a < 256 := h a (by simp)
    have hb : b < 256 := h b (by simp)
    have hc : c < 256 := h c (by simp)
    have k1 := sextetChar_valid (a / 4) (by omega)
    have k2 := sextetChar_valid (a % 4 * 16 + b / 16) (by omega)
    have k3 := sextetChar_valid (b % 16 * 4 + c / 64) (by omega)
    have k4 := sextetChar_valid (c % 64) (by omega)
    intro ch hch
    simp only [b64encode, List.mem_cons, List.not_mem_nil, or_false] at hch
    rcases hch with rfl | rfl | rfl | rfl
    · exact k1
    · exact k2
    · exact k3
    · exact k4
  | a :: b :: c :: d :: rest, h => by
    have ha : a < 256 := h a (by simp)
    have hb : b < 256 := h b (by simp)
    have hc : c < 256 := h c (by simp)
    have ih := b64encode_valid (d :: rest) fun x hx => h x (by simp [hx])
    have k1 := sextetChar_valid (a / 4) (by omega)
    have k2 := sextetChar_valid (a % 4 * 16 + b / 16) (by omega)
    have k3 := sextetChar_valid (b % 16 * 4 + c / 64) (by omega)
    have k4 := sextetChar_valid (c % 64) (by omega)
    intro ch hch
    simp only [b64encode, List.mem_cons] at hch
    rcases hch with rfl | rfl | rfl | rfl | hmem
    · exact k1
    · exact k2
    · exact k3
    · exact k4
    · exact ih ch (by simpa using hmem)

theorem splitChar_of_not_mem (c : Char) (a : Str) (h : c ∉ a) : splitChar c a = [a] := by
  induction a with
  | nil => rfl
  | cons x xs ih =>
    have hx : x ≠ c := fun hc => h (hc ▸ List.mem_cons_self x xs)
    have hxs := ih fun hc => h (List.mem_cons_of_mem x hc)
    simp only [splitChar, if_neg hx, List.append_eq, hxs]

theorem splitChar_append (c : Char) (a b : Str) (h : c ∉ a) :
    splitChar c (a ++ c :: b) = a :: splitChar c b := by
  induction a with
  | nil => simp [splitChar]
  | cons x xs ih =>
    have hx : x ≠ c := fun hc => h (hc ▸ List.mem_cons_self x xs)
    have hxs := ih fun hc => h (List.mem_cons_of_mem x hc)
    simp only [List.cons_append, splitChar, if_neg hx, List.append_eq, hxs]

theorem splitChar_flatten (c : Char) (a : Str) (ns : List Str) (ha : c ∉ a)
    (hns : ∀ n ∈ ns, c ∉ n) :
    splitChar c (a ++ (ns.map (fun n => c :: n)).flatten) = a :: ns := by
  induction ns generalizing a with
  | nil => simpa using splitChar_of_not_mem c a ha
  | cons n t ih =>
    have h1 : a ++ (((n :: t).map (fun n => c :: n)).flatten)
        = a ++ c :: (n ++ (t.map (fun n => c :: n)).flatten) := by
      simp
    rw [h1, splitChar_append c a _ ha,
      ih n (hns n (List.mem_cons_self n t)) fun m hm => hns m (List.mem_cons_of_mem n hm)]

theorem splitFirst_append (c : Char) (a b : Str) (h : c ∉ a) :
    splitFirst c (a ++ c :: b) = some (a, b) := by
  induction a with
  | nil => simp [splitFirst]
  | cons x xs ih =>
    have hx : x ≠ c := fun hc => h (hc ▸ List.mem_cons_self x xs)
    have hxs := ih fun hc => h (List.mem_cons_of_mem x hc)
    simp only [List.cons_append, splitFirst, if_neg hx, List.append_eq, hxs,
      Option.map_some']

theorem trimQuotes_wrap (m : Str) (h : '"' ∉ m) :
    trimQuotes ('"' :: m ++ ['"']) = m := by
  unfold trimQuotes
  have h1 : (('"' :: m ++ ['"'] : Str)).dropWhile (· == '"')
      = (m ++ ['"']).dropWhile (· == '"') := List.dropWhile_cons_of_pos (by decide)
  rw [h1]
  cases m with
  | nil => decide
  | cons x xs =>
    have hx : ¬((x == '"') = true) := by
      simp only [beq_iff_eq]
      exact fun hc => h (hc ▸ List.mem_cons_self x xs)
    have h2 : ((x :: xs ++ ['"'] : Str)).dropWhile (· == '"') = x :: xs ++ ['"'] := by
      rw [List.cons_append]
      exact List.dropWhile_cons_of_neg hx
    rw [h2]
    rw [show ((x :: xs ++ ['"'] : Str)).reverse = '"' :: (x :: xs).reverse from by
      rw [List.reverse_append]
      rfl]
    have h3 : (('"' :: (x :: xs).reverse : Str)).dropWhile (· == '"')
        = ((x :: xs).reverse).dropWhile (· == '"') := List.dropWhile_cons_of_pos (by decide)
    rw [h3, dropWhile_of_head_ne _ (by
        rw [List.head?_reverse]
        intro hc
        exact h (List.mem_of_mem_getLast? (Option.mem_def.mpr hc))), List.reverse_reverse]

end HttpSig

namespace HttpSig

/-! ## Lookup and canonical-buffer lemmas for the round trip -/

theorem find?_keys_nodup (l : List (Str × Str)) (n v : Str)
    (hnd : (l.map Prod.fst).Nodup) (hmem : (n, v) ∈ l) :
    l.find? (fun p => p.1 == n) = some (n, v) := by
  induction l with
  | nil => cases hmem
  | cons q t ih =>
    obtain ⟨m, w⟩ := q
    have hnd' : m ∉ t.map Prod.fst ∧ (t.map Prod.fst).Nodup := by
      rw [List.map_cons] at hnd
      exact List.nodup_cons.mp hnd
    rcases List.mem_cons.mp hmem with heq | hmem'
    · injection heq with h1 h2
      subst h1
      subst h2
      simp [List.find?_cons]
    · have hmn : ((m, w).1 == n) = false := by
        simp only [beq_eq_false_iff_ne, ne_eq]
        intro hc
        subst hc
        exact hnd'.1 (List.mem_map.mpr ⟨(m, v), hmem', rfl⟩)
      simp only [List.find?_cons, hmn]
      exact ih hnd'.2 hmem'

theorem find?_append_left (l₁ l₂ : List (Str × Str)) (p : Str × Str → Bool) (x : Str × Str)
    (h : l₁.find? p = some x) : (l₁ ++ l₂).find? p = some x := by
  rw [List.find?_append, h]
  rfl

theorem find?_append_right (l₁ l₂ : List (Str × Str)) (p : Str × Str → Bool)
    (h : ∀ y ∈ l₁, p y = false) : (l₁ ++ l₂).find? p = l₂.find? p := by
  rw [List.find?_append, List.find?_eq_none.mpr fun y hy => by simp [h y hy]]
  rfl

theorem buildLines_pairs (r : Request) (pairs : List (Str × Str))
    (h : ∀ p ∈ pairs, p.1 ≠ "(request-target)".data ∧ r.getHeader p.1 = some p.2) :
    buildLines r (pairs.map Prod.fst)
      = some ((pairs.map (fun p => p.1 ++ ": ".data ++ p.2 ++ ['\n'])).flatten) := by
  induction pairs with
  | nil => rfl
  | cons q t ih =>
    obtain ⟨n, v⟩ := q
    obtain ⟨hrt, hget⟩ := h (n, v) (List.mem_cons_self _ _)
    simp only [List.map_cons, buildLines, if_neg hrt, hget,
      ih fun p hp => h p (List.mem_cons_of_mem _ hp), Option.map_some', List.flatten_cons]
    congr 1
    simp [List.append_assoc]

end HttpSig

namespace HttpSig

theorem parse_create (sf : Str → List Nat) (kid : Str) (r : Request)
    (hbytes : SignerBytes sf) (hkid : ',' ∉ kid) (hwf : r.WF) :
    parse_signature_parts (create_signature_header sf kid r)
      = some ⟨some ("(request-target)".data ++ (r.headers.map (fun p => ' ' :: p.1)).flatten),
              trimQuotes ('"' :: kid ++ ['"']),
              b64encode (compute_signature sf r), none⟩ := by
  have hJc : ∀ c ∈ (r.headers.map (fun p => ' ' :: p.1)).flatten, c ≠ ',' ∧ c ≠ '"' := by
    intro c hc
    rcases List.mem_flatten.mp hc with ⟨l, hl, hcl⟩
    rcases List.mem_map.mp hl with ⟨p, hp, rfl⟩
    rcases List.mem_cons.mp hcl with rfl | hcn
    · exact ⟨by decide, by decide⟩
    · have := (hwf p hp).2.2 c hcn
      exact ⟨this.1, this.2.1⟩
  have hBc : ∀ c ∈ b64encode (compute_signature sf r), c ≠ ',' ∧ c ≠ '"' :=
    b64encode_chars _ (hbytes _)
  set J := (r.headers.map (fun p => ' ' :: p.1)).flatten with hJ
  set B := b64encode (compute_signature sf r) with hB
  have hdecomp : create_signature_header sf kid r
      = ("keyId".data ++ '=' :: '"' :: (kid ++ ['"']))
        ++ ',' :: (("headers".data ++ '=' :: '"' :: (("(request-target)".data ++ J) ++ ['"']))
        ++ ',' :: ("signature".data ++ '=' :: '"' :: (B ++ ['"']))) := by
    show "keyId=\"".data ++ kid ++ "\",headers=\"(request-target)".data
        ++ J ++ "\",signature=\"".data ++ B ++ "\"".data = _
    rw [show "keyId=\"".data = "keyId".data ++ '=' :: ['"'] from by decide,
      show "\",headers=\"(request-target)".data
        = '"' :: ',' :: ("headers".data ++ '=' :: '"' :: "(request-target)".data) from by decide,
      show "\",signature=\"".data = '"' :: ',' :: ("signature".data ++ '=' :: ['"']) from by
        decide,
      show "\"".data = ['"'] from by decide]
    simp [List.append_assoc]
  have hnmem : ∀ (c : Char) (a b : Str), c ∉ a → c ∉ b → c ∉ a ++ b := by
    intro c a b ha hb hc
    exact (List.mem_append.mp hc).elim ha hb
  have hncons : ∀ (c x : Char) (t : Str), c ≠ x → c ∉ t → c ∉ x :: t := by
    intro c x t hx ht hc
    exact (List.mem_cons.mp hc).elim hx ht
  have hs1 : (',' : Char) ∉ "keyId".data ++ '=' :: '"' :: (kid ++ ['"']) :=
    hnmem _ _ _ (by decide) (hncons _ _ _ (by decide) (hncons _ _ _ (by decide)
      (hnmem _ _ _ hkid (by decide))))
  have hs2 : (',' : Char)
      ∉ "headers".data ++ '=' :: '"' :: (("(request-target)".data ++ J) ++ ['"']) :=
    hnmem _ _ _ (by decide) (hncons _ _ _ (by decide) (hncons _ _ _ (by decide)
      (hnmem _ _ _ (hnmem _ _ _ (by decide) fun hc => (hJc ',' hc).1 rfl) (by decide))))
  have hs3 : (',' : Char) ∉ "signature".data ++ '=' :: '"' :: (B ++ ['"']) :=
    hnmem _ _ _ (by decide) (hncons _ _ _ (by decide) (hncons _ _ _ (by decide)
      (hnmem _ _ _ (fun hc => (hBc ',' hc).1 rfl) (by decide))))
  have hsegs : splitChar ',' (create_signature_header sf kid r)
      = [("keyId".data ++ '=' :: '"' :: (kid ++ ['"'])),
         ("headers".data ++ '=' :: '"' :: (("(request-target)".data ++ J) ++ ['"'])),
         ("signature".data ++ '=' :: '"' :: (B ++ ['"']))] := by
    rw [hdecomp, splitChar_append _ _ _ hs1, splitChar_append _ _ _ hs2,
      splitChar_of_not_mem _ _ hs3]
  have hsf1 : splitFirst '=' ("keyId".data ++ '=' :: '"' :: (kid ++ ['"']))
      = some ("keyId".data, '"' :: (kid ++ ['"'])) := splitFirst_append _ _ _ (by decide)
  have hsf2 : splitFirst '='
        ("headers".data ++ '=' :: '"' :: (("(request-target)".data ++ J) ++ ['"']))
      = some ("headers".data, '"' :: (("(request-target)".data ++ J) ++ ['"'])) :=
    splitFirst_append _ _ _ (by decide)
  have hsf3 : splitFirst '=' ("signature".data ++ '=' :: '"' :: (B ++ ['"']))
      = some ("signature".data, '"' :: (B ++ ['"'])) := splitFirst_append _ _ _ (by decide)
  have hlast : ∀ (w : Str), (('"' :: (w ++ ['"']) : Str)).getLast? = some '"' := by
    intro w
    rw [show ('"' :: (w ++ ['"']) : Str) = ('"' :: w) ++ ['"'] from by simp,
      List.getLast?_concat]
  have hcond : ∀ (w : Str),
      (!((('"' :: (w ++ ['"']) : Str)).head? == some '"'
        && (('"' :: (w ++ ['"']) : Str)).getLast? == some '"')) = false := by
    intro w
    simp [hlast w]
  unfold parse_signature_parts
  rw [hsegs]
  rw [parseSegments_cons_of_some _ _ _ _ _ _ _ _ hsf1, if_neg (by rw [hcond]; simp)]
  rw [if_neg (by decide), if_pos rfl]
  rw [parseSegments_cons_of_some _ _ _ _ _ _ _ _ hsf2, if_neg (by rw [hcond]; simp)]
  rw [if_pos rfl]
  rw [parseSegments_cons_of_some _ _ _ _ _ _ _ _ hsf3, if_neg (by rw [hcond]; simp)]
  rw [if_neg (by decide), if_neg (by decide), if_neg (by decide), if_pos rfl]
  simp only [parseSegments]
  have ht2 : trimQuotes ('"' :: (("(request-target)".data ++ J) ++ ['"']))
      = "(request-target)".data ++ J := by
    rw [show ('"' :: (("(request-target)".data ++ J) ++ ['"']) : Str)
        = '"' :: ("(request-target)".data ++ J) ++ ['"'] from by simp]
    refine trimQuotes_wrap _ ?_
    simp only [List.mem_append, not_or]
    exact ⟨by decide, fun hc => ((hJc '"' hc).2 rfl)⟩
  have ht3 : trimQuotes ('"' :: (B ++ ['"'])) = B := by
    rw [show ('"' :: (B ++ ['"']) : Str) = '"' :: B ++ ['"'] from by simp]
    exact trimQuotes_wrap _ fun hc => ((hBc '"' hc).2 rfl)
  rw [ht2, ht3]
  rfl

end HttpSig

namespace HttpSig

/-- **C1 amended.** Round trip: for every request whose header names are
valid `http::HeaderName`s each carrying a single value, and every key id
that contains no comma and no character `HeaderValue::from_str` rejects
(ASCII control characters), signing with `add_signature_header` succeeds
and verifying the signed request with the matching key pair and the same
digest returns `Ok(true)`. (With a duplicated header name the round trip
fails — see the counterexample — because verify-mode lookup always takes
the first value; with a control character in the key id the signer
returns `Err` instead.) -/
theorem claim1_round_trip_amended (sf : Str → List Nat) (vf : Str → List Nat → Bool)
    (kid : Str) (req : Request)
    (hmatch : MatchingPair sf vf) (hbytes : SignerBytes sf)
    (hwf : req.WF) (hnd : (req.headers.map Prod.fst).Nodup) (hkid : ',' ∉ kid)
    (hkidv : ∀ c ∈ kid, headerValueByteOK c)
    (hnamev : ∀ p ∈ req.headers, ∀ c ∈ p.1, headerValueByteOK c) :
    (add_signature_header sf kid req).2 = .ok () ∧
      verify_request vf (add_signature_header sf kid req).1 = .ok true := by
  set r' := stripSignature req with hr'
  have hwf' : r'.WF := fun p hp => hwf p (List.mem_filter.mp hp).1
  have hnd' : (r'.headers.map Prod.fst).Nodup :=
    List.Nodup.sublist (List.Sublist.map Prod.fst (List.filter_sublist req.headers)) hnd
  set hdr := create_signature_header sf kid r' with hhdr
  have hvB : ∀ ch ∈ b64encode (compute_signature sf r'), headerValueByteOK ch :=
    b64encode_valid _ (hbytes _)
  have hvalid : isValidHeaderValue hdr = true := by
    rw [hhdr]
    unfold isValidHeaderValue
    rw [List.all_eq_true]
    intro c hc
    rw [decide_eq_true_eq]
    unfold create_signature_header at hc
    simp only [List.mem_append] at hc
    rcases hc with ((((((hc | hc) | hc) | hc) | hc) | hc) | hc)
    · exact (by decide : ∀ c ∈ "keyId=\"".data, headerValueByteOK c) c hc
    · exact hkidv c hc
    · exact (by decide : ∀ c ∈ "\",headers=\"(request-target)".data,
        headerValueByteOK c) c hc
    · rcases List.mem_flatten.mp hc with ⟨l, hl, hcl⟩
      rcases List.mem_map.mp hl with ⟨p, hp, rfl⟩
      rcases List.mem_cons.mp hcl with rfl | hcn
      · exact (by decide : headerValueByteOK ' ')
      · exact hnamev p (List.mem_filter.mp hp).1 c hcn
    · exact (by decide : ∀ c ∈ "\",signature=\"".data, headerValueByteOK c) c hc
    · exact hvB c hc
    · exact (by decide : ∀ c ∈ "\"".data, headerValueByteOK c) c hc
  have hadd : add_signature_header sf kid req
      = ({ r' with headers := r'.headers ++ [("signature".data, hdr)] }, .ok ()) := by
    simp only [add_signature_header]
    rw [if_pos hvalid]
  refine ⟨by rw [hadd], ?_⟩
  rw [hadd]
  set r : Request := { r' with headers := r'.headers ++ [("signature".data, hdr)] }
    with hrdef
  have hreq : r.headers = r'.headers ++ [("signature".data, hdr)] := rfl
  have hrm : r.method = r'.method := rfl
  have hru : r.uri = r'.uri := rfl
  have hget_sig : r.getHeader "signature".data = some hdr := by
    unfold Request.getHeader
    rw [hreq]
    rw [find?_append_right _ _ _ (by
      intro p hp
      have hmem := (List.mem_filter.mp hp).2
      have hlow : lowerChars "signature".data = "signature".data := by decide
      rw [hlow]
      simpa using hmem)]
    have hlow : lowerChars "signature".data = "signature".data := by decide
    rw [hlow]
    simp [List.find?_cons]
  have hparse := parse_create sf kid r' hbytes hkid hwf'
  have hdec : b64decode (b64encode (compute_signature sf r'))
      = some (compute_signature sf r') := b64decode_encode _ (hbytes _)
  have hnames : splitChar ' '
        ("(request-target)".data ++ (r'.headers.map (fun p => ' ' :: p.1)).flatten)
      = "(request-target)".data :: r'.headers.map Prod.fst := by
    have hmm : r'.headers.map (fun p => ' ' :: p.1)
        = (r'.headers.map Prod.fst).map (fun n => ' ' :: n) := by
      rw [List.map_map]
      rfl
    rw [hmm]
    refine splitChar_flatten ' ' _ _ (by decide) ?_
    intro n hn
    rcases List.mem_map.mp hn with ⟨p, hp, rfl⟩
    intro hc
    exact ((hwf' p hp).2.2 ' ' hc).2.2.1 rfl
  have hpairs : ∀ p ∈ r'.headers,
      p.1 ≠ "(request-target)".data ∧ r.getHeader p.1 = some p.2 := by
    intro p hp
    have hok := hwf' p hp
    refine ⟨?_, ?_⟩
    · intro hc
      have hpar : '(' ∈ p.1 := hc ▸ (by decide : '(' ∈ "(request-target)".data)
      exact (hok.2.2 '(' hpar).2.2.2 rfl
    · unfold Request.getHeader
      rw [hreq, hok.2.1]
      rw [find?_append_left _ _ _ _
        (find?_keys_nodup r'.headers p.1 p.2 hnd' (by simpa using hp))]
      rfl
  have hbuild := buildLines_pairs r r'.headers hpairs
  have hshape : "(request-target): ".data ++ lowerChars r.method ++ ' ' :: r.uri
        ++ '\n' :: ((r'.headers.map (fun p => p.1 ++ ": ".data ++ p.2 ++ ['\n'])).flatten)
      = signingPayload r' ++ ['\n'] := by
    have h1 : r'.headers.map (fun p => p.1 ++ ": ".data ++ p.2 ++ ['\n'])
        = (r'.headers.map (fun p => p.1 ++ ": ".data ++ p.2)).map (fun t => t ++ ['\n']) := by
      rw [List.map_map]
      apply List.map_congr_left
      intro p _
      simp [List.append_assoc]
    have h2 := flatten_newline_shift
      ("(request-target): ".data ++ lowerChars r'.method ++ ' ' :: r'.uri)
      (r'.headers.map (fun p => p.1 ++ ": ".data ++ p.2))
    have h3 : signingPayload r'
        = "(request-target): ".data ++ lowerChars r'.method ++ ' ' :: r'.uri
          ++ ((r'.headers.map (fun p => p.1 ++ ": ".data ++ p.2)).map
              (fun t => '\n' :: t)).flatten := by
      unfold signingPayload
      rw [List.map_map]
      simp [Function.comp_def]
    rw [hrm, hru, h1, h3]
    simp only [List.append_assoc] at h2 ⊢
    exact h2
  rw [← hhdr] at hparse
  simp only [verify_request, hget_sig, hparse, verify_signature_parts, hdec,
    Option.getD_some, hnames]
  simp only [buildLines, hbuild, Option.map_some', if_true]
  rw [if_neg (by simp)]
  suffices hfin : Except.ok (vf (List.dropLast
      ("(request-target): ".data ++ lowerChars r.method ++ ' ' :: r.uri
        ++ '\n' :: ((r'.headers.map (fun p => p.1 ++ ": ".data ++ p.2 ++ ['\n'])).flatten)))
      (compute_signature sf r')) = (Except.ok true : Except Unit Bool) by exact hfin
  rw [hshape, List.dropLast_concat]
  have hcomp : compute_signature sf r' = sf (signingPayload r') := rfl
  rw [hcomp, hmatch (signingPayload r')]

end HttpSig

namespace HttpSig

/-! ## C1 counterexample and witness -/

/-- A concrete matching "key pair": the signature of a payload is its own
byte sequence, and verification compares the decoded signature with it. -/
def sfC : Str → List Nat := fun m => m.map (fun c => c.toNat % 256)

def vfC : Str → List Nat → Bool := fun m s => s == sfC m

/-- **C1 counterexample.** With the matching pair `sfC`/`vfC`: on a
request carrying two values for the header name `x-a`, signing succeeds
but verifying returns `Ok(false)`, not `Ok(true)` — the signer covers
both values while the verifier reuses the first value for both canonical
lines; and with a key id containing a newline, signing itself returns
`Err` from `header.parse::<HeaderValue>()` and inserts no signature
header. -/
theorem claim1_counterexample :
    MatchingPair sfC vfC ∧ SignerBytes sfC ∧ reqDupHeader.WF ∧
    (add_signature_header sfC "test".data reqDupHeader).2 = .ok () ∧
    verify_request vfC (add_signature_header sfC "test".data reqDupHeader).1 = .ok false ∧
    (Except.ok false : Except Unit Bool) ≠ .ok true ∧
    (add_signature_header sfC "a\nb".data reqDupHeader).2 = .error () := by
  refine ⟨fun m => by simp [vfC], ?_, by decide, by decide, by decide, by decide, by decide⟩
  intro m b hb
  rcases List.mem_map.mp hb with ⟨c, -, rfl⟩
  exact Nat.mod_lt _ (by norm_num)

def reqSample : Request :=
  ⟨"GET".data, "/foo".data, [("host".data, "example.com".data), ("date".data, "Mon".data)], []⟩

theorem claim1_round_trip_amended_witness :
    (add_signature_header sfC "test".data reqSample).2 = .ok () ∧
    verify_request vfC (add_signature_header sfC "test".data reqSample).1 = .ok true :=
  claim1_round_trip_amended sfC vfC "test".data reqSample
    (fun m => by simp [vfC])
    (fun m b hb => by
      rcases List.mem_map.mp hb with ⟨c, -, rfl⟩
      exact Nat.mod_lt _ (by norm_num))
    (by decide) (by decide) (by decide) (by decide) (by decide)

/-- Witness for the C9 frame theorem: at a concrete valid key id the
signer succeeds and stores exactly the header computed over the stripped
request; at a key id containing a newline it errors and stores no
signature header. -/
theorem claim9_signer_frame_witness :
    (add_signature_header sfC "test".data reqSample).1.getHeader "signature".data
        = some (create_signature_header sfC "test".data (stripSignature reqSample)) ∧
      (add_signature_header sfC "a\nb".data reqSample).1.getHeader "signature".data
        = none :=
  ⟨(claim9_signer_frame sfC "test".data reqSample).2.2.2.2.2.1 (by decide),
   (claim9_signer_frame sfC "a\nb".data reqSample).2.2.2.2.2.2.1 (by decide)⟩

end HttpSig
